import Mathlib

/-!
Shallow embedding of the train-dynamics and signaling kernel of the
rail-traction repository (train_sim/slope.py, curve_resistance.py,
acceleration.py, braking.py, block_occupancy.py), together with theorems
settling the specification claims about it.

Modelling conventions: Python floats are modelled as exact rationals
(or reals where `np.sqrt` is involved), `np.nan` sentinels as `Option`
values (`none` = NaN), and a raised Python exception as a `none` result
of the whole call.
-/

namespace TrainSim

/-! ## Piecewise interval geometry (slope.py and curve_resistance.py)

Both calculators share the same overlap search: for an occupied span
`[pos0, pos1]` the included intervals are the indices `j` with
`pos0 < breakpoints[j+1]` and `breakpoints[j] <= pos1`, exactly the
vectorized `np.where((pos[0] < bp[1:]) & (pos[1] >= bp[:-1]))[0]`. -/

def inklIntv (bp : List ℚ) (pos0 pos1 : ℚ) : List ℕ :=
  (List.range (bp.length - 1)).filter
    (fun j => decide (pos0 < bp.getD (j + 1) 0 ∧ bp.getD j 0 ≤ pos1))

/-- The `i >= 1` part of the weighted-contribution loop shared by the two
calculators: every index but the last contributes `vals j` times the full
interval width, the last contributes `vals j` times `pos1 - bp[j]`
(the span clipped at the occupied end). -/
def midLastSum (bp : List ℚ) (vals : ℕ → ℚ) (pos1 : ℚ) : List ℕ → ℚ
  | [] => 0
  | [j] => vals j * (pos1 - bp.getD j 0)
  | j :: j2 :: rest => vals j * (bp.getD (j + 1) 0 - bp.getD j 0) +
      midLastSum bp vals pos1 (j2 :: rest)

/-- The full weighted-contribution loop: the first index contributes
`vals j` times `bp[j+1] - pos0` (the span clipped at the occupied start),
the remaining ones as in `midLastSum`. -/
def loopSum (bp : List ℚ) (vals : ℕ → ℚ) (pos0 pos1 : ℚ) : List ℕ → ℚ
  | [] => 0
  | j :: rest => vals j * (bp.getD (j + 1) 0 - pos0) + midLastSum bp vals pos1 rest

/-- Embedding of `calculate_equivalent_slope` from train_sim/slope.py at a
single sample position `xp`; `none` models the NaN sentinel. -/
def calculate_equivalent_slope1 (lutningPos lutning : List ℚ) (xp trainLength : ℚ) :
    Option ℚ :=
  let pos0 := xp - trainLength
  let pos1 := xp
  let inkl := inklIntv lutningPos pos0 pos1
  if inkl.length = 1 then some (lutning.getD (inkl.headD 0) 0)
  else if 1 < inkl.length then
    some (loopSum lutningPos (fun j => lutning.getD j 0) pos0 pos1 inkl / (pos1 - pos0))
  else none

/-- Embedding of `calculate_equivalent_slope` over a whole list of sample
positions, mirroring the `for k, xp in enumerate(x_pos)` loop. -/
def calculate_equivalent_slope (lutningPos lutning : List ℚ) (xPos : List ℚ)
    (trainLength : ℚ) : List (Option ℚ) :=
  xPos.map (fun xp => calculate_equivalent_slope1 lutningPos lutning xp trainLength)

/-- Embedding of `calculate_curve_resistance` from
train_sim/curve_resistance.py at a single sample position.  In the
multi-interval branch the source computes
`tmp = unit_resistance(r) * train_mass / (pos[1] - pos[0])` and weights
`tmp` by the clipped interval widths, so each contribution carries the
division by the occupied span length. -/
def calculate_curve_resistance1 (curvePos curveRadius : List ℚ)
    (xp trainLength trainMass : ℚ) : Option ℚ :=
  let pos0 := xp - trainLength
  let pos1 := xp
  let inkl := inklIntv curvePos pos0 pos1
  if inkl.length = 1 then
    some ((if curveRadius.getD (inkl.headD 0) 0 < 300 then
        4.91 / (curveRadius.getD (inkl.headD 0) 0 - 30)
      else 6.3 / (curveRadius.getD (inkl.headD 0) 0 - 55)) * trainMass)
  else if 1 < inkl.length then
    some (loopSum curvePos
      (fun j =>
        (if curveRadius.getD j 0 < 300 then 4.91 / (curveRadius.getD j 0 - 30)
          else 6.3 / (curveRadius.getD j 0 - 55)) * trainMass / (pos1 - pos0))
      pos0 pos1 inkl)
  else none

/-- Embedding of `calculate_curve_resistance` over a list of sample
positions. -/
def calculate_curve_resistance (curvePos curveRadius : List ℚ) (xPos : List ℚ)
    (trainLength trainMass : ℚ) : List (Option ℚ) :=
  xPos.map (fun xp => calculate_curve_resistance1 curvePos curveRadius xp trainLength trainMass)

/-- The quantity claim C1 attributes to the multi-interval branch of the
curve-resistance calculator: the per-interval force contributions
`unit_resistance(r) * mass`, each pro-rated by the absolute overlap
length, summed with no division by the occupied span length. -/
def curveForceUnnormalized (curvePos curveRadius : List ℚ)
    (xp trainLength trainMass : ℚ) : ℚ :=
  let pos0 := xp - trainLength
  let pos1 := xp
  loopSum curvePos
    (fun j =>
      (if curveRadius.getD j 0 < 300 then 4.91 / (curveRadius.getD j 0 - 30)
        else 6.3 / (curveRadius.getD j 0 - 55)) * trainMass)
    pos0 pos1 (inklIntv curvePos pos0 pos1)

/-- The equivalent-slope computation as §4.1 of the spec words it: find the
overlapping intervals, return the single value when exactly one overlaps,
otherwise the length-weighted average (first interval clipped at the
occupied start, last at the occupied end, middle in full) normalized by
the total occupied length, and NaN when nothing overlaps. -/
def specEquivalentSlope (positions values : List ℚ) (xp trainLength : ℚ) : Option ℚ :=
  let occStart := xp - trainLength
  let occEnd := xp
  match inklIntv positions occStart occEnd with
  | [] => none
  | [j] => some (values.getD j 0)
  | j :: rest =>
    some ((values.getD j 0 * (positions.getD (j + 1) 0 - occStart) +
      midLastSum positions (fun i => values.getD i 0) occEnd rest) /
        (occEnd - occStart))

/-! ## Acceleration integrator (acceleration.py)

`none` at the top level models the exception raised before the loop when
`dt = 0` (float floor division by zero) or when the computed step count
is below 1 (negative `np.zeros` size, or the `v[0]` store on an empty
array). -/

structure TrainConfig where
  mass_kg : ℚ
  tractive_effort_n : ℚ
  train_type : String
deriving DecidableEq

/-- Gravity constant from acceleration.py. -/
def g : ℚ := 9.81

structure AccelProfile where
  distance : List ℚ
  speed : List ℚ
  acceleration : List ℚ
  tractive_effort : List ℚ
deriving DecidableEq

/-- The `for i in range(1, n_steps)` loop of `calculate_acceleration_profile`,
one recursive call per step, stopping early (and keeping the terminating
entry) when `s_i >= distance`. -/
def accLoop (mass tractiveEffort slopePercent distance vMax dt A B C
    adhesionCoef tunnelFactor curveResistance maxAcc : ℚ) (sPrev vPrev : ℚ) :
    ℕ → AccelProfile
  | 0 => ⟨[], [], [], []⟩
  | fuel + 1 =>
    let F_res := A + B * vPrev + C * vPrev ^ 2
    let F_slope := mass * g * (slopePercent / 100)
    let F_tunnel := tunnelFactor * vPrev ^ 2
    let F_total_res := F_res + F_slope + F_tunnel + curveResistance
    let F_adhesion := adhesionCoef * mass * g
    let F_trac := min tractiveEffort F_adhesion
    let F_net := F_trac - F_total_res
    let a := min (max (F_net / mass) (-maxAcc)) maxAcc
    let v := max 0 (min (vPrev + a * dt) vMax)
    let s := sPrev + v * dt
    if s ≥ distance then ⟨[s], [v], [a], [F_trac]⟩
    else
      let rest := accLoop mass tractiveEffort slopePercent distance vMax dt A B C
        adhesionCoef tunnelFactor curveResistance maxAcc s v fuel
      ⟨s :: rest.distance, v :: rest.speed, a :: rest.acceleration,
        F_trac :: rest.tractive_effort⟩

/-- Embedding of `calculate_acceleration_profile` from
train_sim/acceleration.py.  Index 0 of every array holds the `np.zeros`
initialization (only `v[0]` and `s[0]` are assigned, both to 0). -/
def calculate_acceleration_profile (trainConfig : TrainConfig)
    (slopePercent distance vMax dt A B C adhesionCoef tunnelFactor
      curveResistance maxAcc : ℚ) : Option AccelProfile :=
  if dt = 0 then none
  else
    let nSteps : ℤ := ⌊distance / dt⌋ + 1
    if nSteps < 1 then none
    else
      let rest := accLoop trainConfig.mass_kg trainConfig.tractive_effort_n
        slopePercent distance vMax dt A B C adhesionCoef tunnelFactor
        curveResistance maxAcc 0 0 (nSteps.toNat - 1)
      some ⟨0 :: rest.distance, 0 :: rest.speed, 0 :: rest.acceleration,
        0 :: rest.tractive_effort⟩

/-! ## Block occupancy scheduler (block_occupancy.py) -/

/-- Python sequence indexing `l[i]`: the element for `0 <= i < len(l)`,
wrap-around `l[len(l) + i]` for `-len(l) <= i < 0`, and an IndexError
(modelled `none`) otherwise. -/
def pyGet (l : List ℚ) (i : ℤ) : Option ℚ :=
  if 0 ≤ i then l.get? i.toNat
  else if 0 ≤ i + l.length then l.get? (i + l.length).toNat
  else none

/-- Python `round` on a rational: nearest integer, ties to even. -/
def pyRound (q : ℚ) : ℤ :=
  let f := ⌊q⌋
  let r := q - (f : ℚ)
  if r < 1 / 2 then f
  else if 1 / 2 < r then f + 1
  else if f % 2 = 0 then f else f + 1

/-- Python `int(...)` on a rational: truncation toward zero. -/
def pyInt (q : ℚ) : ℤ := if 0 ≤ q then ⌊q⌋ else -⌊-q⌋

/-- One row of the `mb_times` output of `calculate_block_occupancy`;
`none` fields model entries left at the `np.full(..., np.nan)`
initialization. -/
structure BlockRecord where
  speedDiff : Option ℚ
  matchedIdx : Option ℚ
  bookingTime : Option ℚ
  arrivalTime : Option ℚ
  releaseTime : Option ℚ
deriving DecidableEq

/-- The body of the `for k, bp in enumerate(block_positions)` loop of
`calculate_block_occupancy` for one block: release-speed match search,
booking (with reserve-before-arrival fallback), arrival, and release
columns.  An outer `none` models an IndexError escaping the call. -/
def blockRecord (speedProfile timeProfile releaseSpeed overlap releaseTime
    settingTime : List ℚ) (trainLength reserveBeforeArrival vTol : ℚ)
    (k : ℕ) (bp : ℤ) : Option BlockRecord :=
  (pyGet releaseSpeed k).bind fun rs =>
    let speedDiff := speedProfile.map (fun x => |x - rs|)
    let idx := (List.range speedDiff.length).filter
      (fun j => decide (speedDiff.getD j 0 ≤ vTol))
    let firstCols : Option (Option ℚ × Option ℚ × Option ℚ) :=
      match idx with
      | [] =>
        if bp < (timeProfile.length : ℤ) then
          (pyGet timeProfile bp).bind fun t =>
            some (none, none, some (t - reserveBeforeArrival))
        else some (none, none, none)
      | b :: _ =>
        (pyGet timeProfile (b : ℤ)).bind fun t =>
          (pyGet settingTime k).bind fun st =>
            some (some (speedDiff.getD b 0), some (b : ℚ), some (t - st))
    firstCols.bind fun c012 =>
      (if bp < (timeProfile.length : ℤ) then
          (pyGet timeProfile bp).bind fun t => some (some t)
        else some none).bind fun c3 =>
        (pyGet overlap k).bind fun ov =>
          (if bp + pyRound trainLength + pyInt ov < (timeProfile.length : ℤ) then
              (pyGet timeProfile (bp + pyRound trainLength + pyInt ov)).bind fun t =>
                (pyGet releaseTime k).bind fun rt => some (some (t + rt))
            else some none).bind fun c4 =>
            some ⟨c012.1, c012.2.1, c012.2.2, c3, c4⟩

/-- Embedding of `calculate_block_occupancy` from
train_sim/block_occupancy.py (the `position_profile` argument is accepted
and unused, as in the source). -/
def calculate_block_occupancy (blockPositions : List ℤ)
    (speedProfile positionProfile timeProfile releaseSpeed : List ℚ)
    (trainLength : ℚ) (overlap releaseTime settingTime : List ℚ)
    (reserveBeforeArrival vTol : ℚ) : Option (List BlockRecord) :=
  blockPositions.enum.mapM (fun p =>
    blockRecord speedProfile timeProfile releaseSpeed overlap releaseTime
      settingTime trainLength reserveBeforeArrival vTol p.1 p.2)

/-! ## Braking integrator (braking.py)

The speed update uses `np.sqrt`, so this embedding lives over `ℝ`. -/

structure BrakeProfile where
  distance : List ℝ
  speed : List ℝ
  deceleration : List ℝ

/-- The body of one braking step: clamped deceleration `dec`, the
mean-velocity speed update through `v1`, `v2`, and the position update;
returns `(dec, v_i, s_i)`. -/
noncomputable def brakeStep (decelerationProfile minDec maxDec dt gr : ℝ)
    (slope sPrev vPrev : ℝ) : ℝ × ℝ × ℝ :=
  let dec := max minDec (min (decelerationProfile + gr * slope) maxDec)
  let v1 := Real.sqrt (max 0 (2 * dec + vPrev ^ 2))
  let v2 := (vPrev + v1) / 2
  let v := max 0 (vPrev + dec * 1 / max v2 (1e-6))
  let s := sPrev + v * dt
  (dec, v, s)

open Classical in
/-- The `for i in range(1, n_steps)` loop of `calculate_braking_profile`:
slope lookup at index `i-1` (0 when no profile is supplied; IndexError,
modelled `none`, when the supplied profile is too short), then the
`brakeStep` update, with early stop when `v_i <= 0` or `s_i >= distance`. -/
noncomputable def brakeLoop (decelerationProfile minDec maxDec dt gr distance : ℝ)
    (slopeProfile : Option (List ℝ)) (sPrev vPrev : ℝ) (i : ℕ) :
    ℕ → Option (List ℝ × List ℝ × List ℝ)
  | 0 => some ([], [], [])
  | fuel + 1 =>
    let slope? : Option ℝ :=
      match slopeProfile with
      | none => some 0
      | some l => l.get? (i - 1)
    match slope? with
    | none => none
    | some slope =>
      let dec := (brakeStep decelerationProfile minDec maxDec dt gr slope sPrev vPrev).1
      let v := (brakeStep decelerationProfile minDec maxDec dt gr slope sPrev vPrev).2.1
      let s := (brakeStep decelerationProfile minDec maxDec dt gr slope sPrev vPrev).2.2
      if v ≤ 0 ∨ s ≥ distance then some ([s], [v], [dec])
      else
        match brakeLoop decelerationProfile minDec maxDec dt gr distance
          slopeProfile s v (i + 1) fuel with
        | none => none
        | some (ss, vs, ds) => some (s :: ss, v :: vs, dec :: ds)

open Classical in
/-- Embedding of `calculate_braking_profile` from train_sim/braking.py.
`none` models an exception: `dt = 0` (float floor division by zero), a
computed step count below 1 (`np.zeros` size / `v[0]` store), or an
IndexError from a too-short `slope_profile` inside the loop. -/
noncomputable def calculate_braking_profile (initialSpeed distance : ℝ)
    (slopeProfile : Option (List ℝ))
    (decelerationProfile minDec maxDec dt gr : ℝ) : Option BrakeProfile :=
  if dt = 0 then none
  else
    let nSteps : ℤ := ⌊distance / dt⌋ + 1
    if nSteps < 1 then none
    else
      match brakeLoop decelerationProfile minDec maxDec dt gr distance
        slopeProfile 0 initialSpeed 1 (nSteps.toNat - 1) with
      | none => none
      | some (ss, vs, ds) => some ⟨0 :: ss, initialSpeed :: vs, 0 :: ds⟩

/-! ## Helper lemmas -/

lemma mem_inklIntv {bp : List ℚ} {pos0 pos1 : ℚ} {j : ℕ} :
    j ∈ inklIntv bp pos0 pos1 ↔
      j < bp.length - 1 ∧ pos0 < bp.getD (j + 1) 0 ∧ bp.getD j 0 ≤ pos1 := by
  simp [inklIntv, List.mem_filter, List.mem_range, and_assoc]

lemma midLastSum_div (bp : List ℚ) (vals : ℕ → ℚ) (pos1 c : ℚ) :
    ∀ l : List ℕ, midLastSum bp (fun j => vals j / c) pos1 l =
      midLastSum bp vals pos1 l / c
  | [] => by simp [midLastSum]
  | [j] => by simp only [midLastSum, div_mul_eq_mul_div]
  | j :: j2 :: rest => by
    rw [midLastSum, midLastSum, midLastSum_div bp vals pos1 c (j2 :: rest),
      div_mul_eq_mul_div, add_div]

lemma loopSum_div (bp : List ℚ) (vals : ℕ → ℚ) (pos0 pos1 c : ℚ) (l : List ℕ) :
    loopSum bp (fun j => vals j / c) pos0 pos1 l =
      loopSum bp vals pos0 pos1 l / c := by
  cases l with
  | nil => simp [loopSum]
  | cons j rest =>
    rw [loopSum, loopSum, midLastSum_div, div_mul_eq_mul_div, add_div]

/-! ## Claims C6 and C1: weighting geometry of the two calculators -/

/-- Claim C6: for every slope profile and sample position, the equivalent
slope is the single overlapping interval's value when exactly one interval
satisfies the overlap condition, the length-weighted clipped average
normalized by the occupied length when several do, and NaN (`none`) when
none does — i.e. the source agrees with the spec-worded
`specEquivalentSlope` on every input. -/
theorem slope_matches_spec (positions values : List ℚ) (xp trainLength : ℚ) :
    calculate_equivalent_slope1 positions values xp trainLength =
      specEquivalentSlope positions values xp trainLength := by
  unfold calculate_equivalent_slope1 specEquivalentSlope
  cases h : inklIntv positions (xp - trainLength) xp with
  | nil => simp [h]
  | cons j rest =>
    cases rest with
    | nil => simp [h]
    | cons j2 rest2 =>
      simp [h, loopSum, List.length_cons]

/-- Claim C1 (amended): in the multi-interval case the curve-resistance
calculator returns the pro-rated sum of per-interval force contributions
`unit_resistance(r) * mass` divided by the occupied span length
`train_length` — it does normalize by the total occupied span length,
exactly like the equivalent-slope calculator. -/
theorem curve_resistance_normalized (curvePos curveRadius : List ℚ)
    (xp trainLength trainMass : ℚ)
    (hmulti : 1 < (inklIntv curvePos (xp - trainLength) xp).length) :
    calculate_curve_resistance1 curvePos curveRadius xp trainLength trainMass =
      some (curveForceUnnormalized curvePos curveRadius xp trainLength trainMass /
        trainLength) := by
  unfold calculate_curve_resistance1 curveForceUnnormalized
  rw [if_neg (by omega), if_pos hmulti]
  rw [loopSum_div curvePos
    (fun j => (if curveRadius.getD j 0 < 300 then 4.91 / (curveRadius.getD j 0 - 30)
      else 6.3 / (curveRadius.getD j 0 - 55)) * trainMass)
    (xp - trainLength) xp (xp - (xp - trainLength))]
  have hx : xp - (xp - trainLength) = trainLength := by ring
  rw [hx]

/-- Witness for the amended claim C1 at a concrete two-interval input. -/
theorem curve_resistance_normalized_witness :
    calculate_curve_resistance1 [0, 10, 20] [100, 100] 20 20 1 =
      some (curveForceUnnormalized [0, 10, 20] [100, 100] 20 20 1 / 20) :=
  curve_resistance_normalized [0, 10, 20] [100, 100] 20 20 1 (by
    norm_num [inklIntv, List.range_succ, List.filter_append, List.filter_cons,
      List.getD_cons_zero, List.getD_cons_succ])

/-- Counterexample to claim C1 as stated: at breakpoints `[0, 10, 20]`,
radii `[100, 100]`, sample position 20, train length 20 and mass 1, the
source returns `491/7000` while the unnormalized pro-rated force sum the
claim describes is `491/350`; the returned value is the sum divided by
the occupied span length 20, not the bare sum. -/
theorem curve_resistance_counterexample :
    calculate_curve_resistance1 [0, 10, 20] [100, 100] 20 20 1 = some (491 / 7000) ∧
      curveForceUnnormalized [0, 10, 20] [100, 100] 20 20 1 = 491 / 350 ∧
      calculate_curve_resistance1 [0, 10, 20] [100, 100] 20 20 1 ≠
        some (curveForceUnnormalized [0, 10, 20] [100, 100] 20 20 1) := by
  refine ⟨?_, ?_, ?_⟩ <;>
    norm_num [calculate_curve_resistance1, curveForceUnnormalized, inklIntv,
      List.range_succ, List.filter_append, List.filter_cons, loopSum, midLastSum,
      List.getD_cons_zero, List.getD_cons_succ]

/-! ## Claims on the acceleration integrator -/

lemma getLast?_cons_of_getLast? {α : Type} {l : List α} {x : α} (a : α)
    (h : l.getLast? = some x) : (a :: l).getLast? = some x := by
  cases l with
  | nil => simp at h
  | cons b t => rw [List.getLast?_cons_cons]; exact h

lemma accLoop_spec (mass TE sp d vM dt A B C ad tu cu ma : ℚ) :
    ∀ (fuel : ℕ) (sPrev vPrev : ℚ) (p : AccelProfile),
      accLoop mass TE sp d vM dt A B C ad tu cu ma sPrev vPrev fuel = p →
      (p.speed.length = p.distance.length ∧
        p.acceleration.length = p.distance.length ∧
        p.tractive_effort.length = p.distance.length) ∧
      p.distance.length ≤ fuel ∧
      (p.distance.length = fuel ∨ ∃ x, p.distance.getLast? = some x ∧ d ≤ x) ∧
      (∀ i, i + 1 < p.distance.length → p.distance.getD i 0 < d) := by
  intro fuel
  induction fuel with
  | zero =>
    intro sPrev vPrev p hp
    simp only [accLoop] at hp
    subst hp
    refine ⟨⟨rfl, rfl, rfl⟩, le_refl _, Or.inl rfl, ?_⟩
    intro i hi
    simp at hi
  | succ n ih =>
    intro sPrev vPrev p hp
    simp only [accLoop] at hp
    split at hp
    · subst hp
      refine ⟨⟨rfl, rfl, rfl⟩, by simp, Or.inr ⟨_, rfl, by assumption⟩, ?_⟩
      intro i hi
      simp at hi
    · rename_i hlt
      subst hp
      obtain ⟨⟨l1, l2, l3⟩, hle, hterm, hint⟩ := ih _ _ _ rfl
      refine ⟨⟨by simpa using l1, by simpa using l2, by simpa using l3⟩,
        by simpa using Nat.succ_le_succ hle, ?_, ?_⟩
      · rcases hterm with h | ⟨x, hx, hdx⟩
        · exact Or.inl (by simpa using h)
        · exact Or.inr ⟨x, getLast?_cons_of_getLast? _ hx, hdx⟩
      · intro i hi
        cases i with
        | zero =>
          simpa using lt_of_not_ge hlt
        | succ i =>
          simp only [List.getD_cons_succ]
          exact hint i (by simpa using hi)

/-- Claim C5: for distance > 0 and dt > 0 the acceleration integrator
requests `⌊distance/dt⌋ + 1` steps, truncates all four arrays together and
inclusively at the first index whose distance reaches `distance`, and
returns the full requested profile when the step budget runs out first. -/
theorem acceleration_truncation (cfg : TrainConfig)
    (sp d vM dt A B C ad tu cu ma : ℚ) (hd : 0 < d) (hdt : 0 < dt) :
    ∃ p, calculate_acceleration_profile cfg sp d vM dt A B C ad tu cu ma = some p ∧
      p.speed.length = p.distance.length ∧
      p.acceleration.length = p.distance.length ∧
      p.tractive_effort.length = p.distance.length ∧
      p.distance.length ≤ (⌊d / dt⌋ + 1).toNat ∧
      (p.distance.length = (⌊d / dt⌋ + 1).toNat ∨ d ≤ p.distance.getLastD 0) ∧
      ∀ i, i + 1 < p.distance.length → p.distance.getD i 0 < d := by
  have hfl : 0 ≤ ⌊d / dt⌋ := Int.floor_nonneg.mpr (div_nonneg hd.le hdt.le)
  unfold calculate_acceleration_profile
  rw [if_neg hdt.ne', if_neg (by omega)]
  refine ⟨_, rfl, ?_⟩
  obtain ⟨⟨l1, l2, l3⟩, hle, hterm, hint⟩ :=
    accLoop_spec cfg.mass_kg cfg.tractive_effort_n sp d vM dt A B C ad tu cu ma
      ((⌊d / dt⌋ + 1).toNat - 1) 0 0 _ rfl
  have hn : 1 ≤ (⌊d / dt⌋ + 1).toNat := by omega
  refine ⟨by simpa using l1, by simpa using l2, by simpa using l3,
    by simp only [List.length_cons]; omega, ?_, ?_⟩
  · rcases hterm with h | ⟨x, hx, hdx⟩
    · exact Or.inl (by simp only [List.length_cons]; omega)
    · refine Or.inr ?_
      rw [List.getLastD_eq_getLast?, getLast?_cons_of_getLast? _ hx]
      simpa using hdx
  · intro i hi
    cases i with
    | zero => simpa using hd
    | succ i =>
      simp only [List.getD_cons_succ]
      exact hint i (by simpa using hi)

/-- Witness for claim C5 at a concrete input (distance 1/2, dt 1: the
requested step count is 1 and the loop body never runs). -/
theorem acceleration_truncation_witness :
    ∃ p, calculate_acceleration_profile ⟨1, 0, "t"⟩ 0 (1/2) 10 1 1500 (5/2)
        (1/125) (1/4) 0 0 1 = some p ∧
      p.speed.length = p.distance.length ∧
      p.acceleration.length = p.distance.length ∧
      p.tractive_effort.length = p.distance.length ∧
      p.distance.length ≤ (⌊(1:ℚ)/2 / 1⌋ + 1).toNat ∧
      (p.distance.length = (⌊(1:ℚ)/2 / 1⌋ + 1).toNat ∨ (1:ℚ)/2 ≤ p.distance.getLastD 0) ∧
      ∀ i, i + 1 < p.distance.length → p.distance.getD i 0 < (1:ℚ)/2 :=
  acceleration_truncation ⟨1, 0, "t"⟩ 0 (1/2) 10 1 1500 (5/2) (1/125) (1/4) 0 0 1
    (by norm_num) (by norm_num)

lemma accLoop_bounds (mass TE sp d vM dt A B C ad tu cu ma : ℚ)
    (hdt : 0 ≤ dt) (hv : 0 ≤ vM) :
    ∀ (fuel : ℕ) (sPrev vPrev : ℚ) (p : AccelProfile),
      accLoop mass TE sp d vM dt A B C ad tu cu ma sPrev vPrev fuel = p →
      (∀ x ∈ p.speed, 0 ≤ x ∧ x ≤ vM) ∧
        List.Chain' (fun x y => x ≤ y) (sPrev :: p.distance) := by
  intro fuel
  induction fuel with
  | zero =>
    intro sPrev vPrev p hp
    simp only [accLoop] at hp
    subst hp
    simp
  | succ n ih =>
    intro sPrev vPrev p hp
    simp only [accLoop] at hp
    split at hp
    · subst hp
      refine ⟨?_, ?_⟩
      · intro x hx
        simp only [List.mem_singleton] at hx
        subst hx
        exact ⟨le_max_left _ _, max_le hv (min_le_right _ _)⟩
      · simp only [List.chain'_cons, List.chain'_singleton, and_true]
        have hvn : (0:ℚ) ≤ max 0 (min (vPrev + min (max ((min TE (ad * mass * g) -
            (A + B * vPrev + C * vPrev ^ 2 + mass * g * (sp / 100) +
              tu * vPrev ^ 2 + cu)) / mass) (-ma)) ma * dt) vM) :=
          le_max_left _ _
        nlinarith [mul_nonneg hvn hdt]
    · subst hp
      obtain ⟨hsp, hch⟩ := ih _ _ _ rfl
      refine ⟨?_, ?_⟩
      · intro x hx
        simp only [List.mem_cons] at hx
        rcases hx with rfl | hx
        · exact ⟨le_max_left _ _, max_le hv (min_le_right _ _)⟩
        · exact hsp x hx
      · refine List.Chain'.cons ?_ hch
        have hvn : (0:ℚ) ≤ max 0 (min (vPrev + min (max ((min TE (ad * mass * g) -
            (A + B * vPrev + C * vPrev ^ 2 + mass * g * (sp / 100) +
              tu * vPrev ^ 2 + cu)) / mass) (-ma)) ma * dt) vM) :=
          le_max_left _ _
        nlinarith [mul_nonneg hvn hdt]

/-- Claim C7: for valid inputs (positive mass, positive dt, nonnegative
speed cap) every produced speed entry lies in `[0, v_max]` and the produced
distance array is non-decreasing at every index. -/
theorem acceleration_invariants (cfg : TrainConfig)
    (sp d vM dt A B C ad tu cu ma : ℚ)
    (hm : 0 < cfg.mass_kg) (hdt : 0 < dt) (hv : 0 ≤ vM) (p : AccelProfile)
    (hp : calculate_acceleration_profile cfg sp d vM dt A B C ad tu cu ma = some p) :
    (∀ x ∈ p.speed, 0 ≤ x ∧ x ≤ vM) ∧
      List.Chain' (fun x y => x ≤ y) p.distance := by
  unfold calculate_acceleration_profile at hp
  rw [if_neg hdt.ne'] at hp
  simp only [] at hp
  split at hp
  · exact absurd hp (by simp)
  · obtain ⟨hsp, hch⟩ := accLoop_bounds cfg.mass_kg cfg.tractive_effort_n
      sp d vM dt A B C ad tu cu ma hdt.le hv _ 0 0 _ rfl
    cases hp
    refine ⟨?_, hch⟩
    intro x hx
    simp only [List.mem_cons] at hx
    rcases hx with rfl | hx
    · exact ⟨le_refl _, hv⟩
    · exact hsp x hx

/-- Witness for claim C7 at a concrete valid input. -/
theorem acceleration_invariants_witness :
    (∀ x ∈ (⟨[0], [0], [0], [0]⟩ : AccelProfile).speed, (0:ℚ) ≤ x ∧ x ≤ 10) ∧
      List.Chain' (fun x y => x ≤ y) (⟨[0], [0], [0], [0]⟩ : AccelProfile).distance :=
  acceleration_invariants ⟨1, 0, "t"⟩ 0 (1/2) 10 1 1500 (5/2) (1/125) (1/4) 0 0 1
    (by norm_num) (by norm_num) (by norm_num) ⟨[0], [0], [0], [0]⟩
    (by norm_num [calculate_acceleration_profile, accLoop])

/-- Claim C10: whenever the acceleration integrator returns a profile,
index 0 of all four arrays holds 0 — speed and distance by explicit
initialization, acceleration and applied tractive effort because the loop
starts writing at step 1 and index 0 keeps its `np.zeros` value. -/
theorem acceleration_index_zero (cfg : TrainConfig)
    (sp d vM dt A B C ad tu cu ma : ℚ) (p : AccelProfile)
    (hp : calculate_acceleration_profile cfg sp d vM dt A B C ad tu cu ma = some p) :
    p.distance.head? = some 0 ∧ p.speed.head? = some 0 ∧
      p.acceleration.head? = some 0 ∧ p.tractive_effort.head? = some 0 := by
  unfold calculate_acceleration_profile at hp
  split at hp
  · exact absurd hp (by simp)
  · simp only [] at hp
    split at hp
    · exact absurd hp (by simp)
    · cases hp
      exact ⟨rfl, rfl, rfl, rfl⟩

/-- Witness for claim C10 at a concrete input. -/
theorem acceleration_index_zero_witness :
    (⟨[0], [0], [0], [0]⟩ : AccelProfile).distance.head? = some 0 ∧
      (⟨[0], [0], [0], [0]⟩ : AccelProfile).speed.head? = some 0 ∧
      (⟨[0], [0], [0], [0]⟩ : AccelProfile).acceleration.head? = some 0 ∧
      (⟨[0], [0], [0], [0]⟩ : AccelProfile).tractive_effort.head? = some 0 :=
  acceleration_index_zero ⟨1, 0, "t"⟩ 0 (1/2) 10 1 1500 (5/2) (1/125) (1/4) 0 0 1
    ⟨[0], [0], [0], [0]⟩ (by norm_num [calculate_acceleration_profile, accLoop])

/-! ## Claims on the braking integrator: entry behavior and slope indexing -/

lemma brakeLoop_none_slope_isSome (dp mind maxd dt gr d : ℝ) :
    ∀ (fuel : ℕ) (s v : ℝ) (i : ℕ),
      (brakeLoop dp mind maxd dt gr d none s v i fuel).isSome := by
  intro fuel
  induction fuel with
  | zero => intro s v i; rw [brakeLoop]; rfl
  | succ n ih =>
    intro s v i
    simp only [brakeLoop]
    split
    · rfl
    · obtain ⟨r, hr⟩ := Option.isSome_iff_exists.mp (ih _ _ (i + 1))
      rw [hr]
      obtain ⟨ss, vs, ds⟩ := r
      rfl

lemma brakeLoop_covered_isSome (dp mind maxd dt gr d : ℝ) (l : List ℝ) :
    ∀ (fuel : ℕ) (s v : ℝ) (i : ℕ), 1 ≤ i → i - 1 + fuel ≤ l.length →
      (brakeLoop dp mind maxd dt gr d (some l) s v i fuel).isSome := by
  intro fuel
  induction fuel with
  | zero => intro s v i _ _; rw [brakeLoop]; rfl
  | succ n ih =>
    intro s v i hi hlen
    rw [brakeLoop]
    cases hx : l.get? (i - 1) with
    | none =>
      have := List.get?_eq_none.mp hx
      omega
    | some slope =>
      simp only [hx]
      split
      · rfl
      · obtain ⟨r, hr⟩ := Option.isSome_iff_exists.mp
          (ih _ _ (i + 1) (by omega) (by omega))
        rw [hr]
        obtain ⟨ss, vs, ds⟩ := r
        rfl

/-- Claim C2 (amended): neither integrator validates its physics
parameters; the only failures at entry are `dt = 0` (float floor division
by zero while computing the step count) and a computed step count below 1
(impossible array allocation / index-0 store, e.g. negative `dt` with
positive distance).  Non-positive `mass_kg`/`tractive_effort_n` and
`min_dec >= 0`/`max_dec >= 0`/`min_dec > max_dec` are silently accepted
and integration proceeds. -/
theorem no_parameter_validation :
    (∀ (cfg : TrainConfig) (sp d vM dt A B C ad tu cu ma : ℚ),
        calculate_acceleration_profile cfg sp d vM dt A B C ad tu cu ma = none ↔
          dt = 0 ∨ ⌊d / dt⌋ + 1 < 1) ∧
    (∀ (v0 d dp mind maxd dt gr : ℝ),
        calculate_braking_profile v0 d none dp mind maxd dt gr = none ↔
          dt = 0 ∨ ⌊d / dt⌋ + 1 < 1) := by
  constructor
  · intro cfg sp d vM dt A B C ad tu cu ma
    unfold calculate_acceleration_profile
    by_cases h1 : dt = 0
    · rw [if_pos h1]; simp [h1]
    · rw [if_neg h1]
      simp only []
      by_cases h2 : ⌊d / dt⌋ + 1 < 1
      · rw [if_pos h2]; simp [h1, h2]
      · rw [if_neg h2]; simp [h1, h2]
  · intro v0 d dp mind maxd dt gr
    unfold calculate_braking_profile
    by_cases h1 : dt = 0
    · rw [if_pos h1]; simp [h1]
    · rw [if_neg h1]
      simp only []
      by_cases h2 : ⌊d / dt⌋ + 1 < 1
      · rw [if_pos h2]; simp [h1, h2]
      · rw [if_neg h2]
        obtain ⟨r, hr⟩ := Option.isSome_iff_exists.mp
          (brakeLoop_none_slope_isSome dp mind maxd dt gr d
            ((⌊d / dt⌋ + 1).toNat - 1) 0 v0 1)
        rw [hr]
        obtain ⟨ss, vs, ds⟩ := r
        simp [h1, h2]

/-- Counterexample to claim C2 as stated: an acceleration call with
negative `mass_kg` and `tractive_effort_n`, and a braking call with
`min_dec = 1 >= 0`, `max_dec = 2 >= 0` and `min_dec > max_dec` violated
in sign, both return a profile instead of failing at entry. -/
theorem no_parameter_validation_counterexample :
    (calculate_acceleration_profile ⟨-1, -5, "t"⟩ 0 2 10 1 1500 (5/2) (1/125)
        (1/4) 0 0 1).isSome = true ∧
      (calculate_braking_profile 0 1 none (-1) 1 2 1 (981/100)).isSome = true := by
  constructor
  · norm_num [calculate_acceleration_profile]
  · unfold calculate_braking_profile
    rw [if_neg (by norm_num : ¬(1:ℝ) = 0)]
    simp only []
    rw [if_neg (by norm_num : ¬⌊(1:ℝ) / 1⌋ + 1 < 1)]
    obtain ⟨r, hr⟩ := Option.isSome_iff_exists.mp
      (brakeLoop_none_slope_isSome (-1) 1 2 1 (981/100) 1
        ((⌊(1:ℝ) / 1⌋ + 1).toNat - 1) 0 0 1)
    rw [hr]
    obtain ⟨ss, vs, ds⟩ := r
    rfl

/-- Claim C9: with a supplied slope profile shorter than the executed
steps, the braking integrator raises an uncaught IndexError from
`slope_profile[i-1]` inside the loop (modelled as a `none` result) instead
of treating the missing slope as 0 or failing fast at entry (the same
numbers with no slope profile return a profile), and the call is total
whenever the profile covers the worst case of `⌊distance/dt⌋` entries read
at indices `0` through `⌊distance/dt⌋ - 1`. -/
theorem braking_slope_indexing :
    (∀ (v0 d dp mind maxd dt gr : ℝ) (l : List ℝ), 0 < d → 0 < dt →
        ⌊d / dt⌋ ≤ (l.length : ℤ) →
        (calculate_braking_profile v0 d (some l) dp mind maxd dt gr).isSome = true) ∧
      calculate_braking_profile 2 5 (some []) (-1) (-6/5) (-1/2) 1 (981/100) = none ∧
      (calculate_braking_profile 2 5 none (-1) (-6/5) (-1/2) 1 (981/100)).isSome = true := by
  refine ⟨?_, ?_, ?_⟩
  · intro v0 d dp mind maxd dt gr l hd hdt hlen
    have hfl : 0 ≤ ⌊d / dt⌋ := Int.floor_nonneg.mpr (div_nonneg hd.le hdt.le)
    unfold calculate_braking_profile
    rw [if_neg hdt.ne']
    simp only []
    rw [if_neg (by omega)]
    obtain ⟨r, hr⟩ := Option.isSome_iff_exists.mp
      (brakeLoop_covered_isSome dp mind maxd dt gr d l
        ((⌊d / dt⌋ + 1).toNat - 1) 0 v0 1 (le_refl 1) (by omega))
    rw [hr]
    obtain ⟨ss, vs, ds⟩ := r
    rfl
  · unfold calculate_braking_profile
    rw [if_neg (by norm_num : ¬(1:ℝ) = 0)]
    simp only []
    rw [if_neg (by norm_num : ¬⌊(5:ℝ) / 1⌋ + 1 < 1)]
    have hfuel : (⌊(5:ℝ) / 1⌋ + 1).toNat - 1 = 4 + 1 := by
      norm_num
      decide
    rw [hfuel, brakeLoop]
    rfl
  · unfold calculate_braking_profile
    rw [if_neg (by norm_num : ¬(1:ℝ) = 0)]
    simp only []
    rw [if_neg (by norm_num : ¬⌊(5:ℝ) / 1⌋ + 1 < 1)]
    obtain ⟨r, hr⟩ := Option.isSome_iff_exists.mp
      (brakeLoop_none_slope_isSome (-1) (-6/5) (-1/2) 1 (981/100) 5
        ((⌊(5:ℝ) / 1⌋ + 1).toNat - 1) 0 2 1)
    rw [hr]
    obtain ⟨ss, vs, ds⟩ := r
    rfl

/-- Witness for claim C9: a slope profile of length 5 covers a braking run
over distance 5 with dt 1, so the call returns a profile. -/
theorem braking_slope_indexing_witness :
    (calculate_braking_profile 0 5 (some [0, 0, 0, 0, 0]) (-1) (-6/5) (-1/2) 1
      (981/100)).isSome = true :=
  braking_slope_indexing.1 0 5 (-1) (-6/5) (-1/2) 1 (981/100) [0, 0, 0, 0, 0]
    (by norm_num) (by norm_num) (by norm_num)

/-! ## Claim C3: monotonicity and termination of the braking speed -/

lemma brakeStep_v_nonneg (dp mind maxd dt gr slope sPrev vPrev : ℝ) :
    0 ≤ (brakeStep dp mind maxd dt gr slope sPrev vPrev).2.1 := le_max_left _ _

lemma brakeStep_v_le (dp mind maxd dt gr slope sPrev vPrev : ℝ)
    (h1 : mind ≤ maxd) (h2 : maxd < 0) (hv : 0 ≤ vPrev) :
    (brakeStep dp mind maxd dt gr slope sPrev vPrev).2.1 ≤ vPrev := by
  unfold brakeStep
  simp only []
  have hdecle : max mind (min (dp + gr * slope) maxd) ≤ maxd :=
    max_le h1 (min_le_right _ _)
  have hdiv : (0:ℝ) < max ((vPrev + Real.sqrt (max 0
      (2 * max mind (min (dp + gr * slope) maxd) + vPrev ^ 2))) / 2) (1e-6 : ℝ) :=
    lt_max_of_lt_right (by norm_num)
  have hneg : max mind (min (dp + gr * slope) maxd) * 1 /
      max ((vPrev + Real.sqrt (max 0
        (2 * max mind (min (dp + gr * slope) maxd) + vPrev ^ 2))) / 2) (1e-6 : ℝ) < 0 :=
    div_neg_of_neg_of_pos (by nlinarith [lt_of_le_of_lt hdecle h2]) hdiv
  calc max 0 (vPrev + max mind (min (dp + gr * slope) maxd) * 1 /
        max ((vPrev + Real.sqrt (max 0
          (2 * max mind (min (dp + gr * slope) maxd) + vPrev ^ 2))) / 2) (1e-6 : ℝ))
      ≤ max 0 vPrev := max_le_max le_rfl (by linarith)
    _ = vPrev := max_eq_right hv

lemma brakeStep_v_eq_zero (dp mind maxd dt gr slope sPrev vPrev : ℝ)
    (h : (brakeStep dp mind maxd dt gr slope sPrev vPrev).2.1 ≤ 0) :
    (brakeStep dp mind maxd dt gr slope sPrev vPrev).2.1 = 0 :=
  le_antisymm h (brakeStep_v_nonneg dp mind maxd dt gr slope sPrev vPrev)

lemma brakeLoop_chain (dp mind maxd dt gr d : ℝ) (sp : Option (List ℝ))
    (h1 : mind ≤ maxd) (h2 : maxd < 0) :
    ∀ (fuel : ℕ) (i : ℕ) (s v : ℝ), 0 ≤ v →
      ∀ r, brakeLoop dp mind maxd dt gr d sp s v i fuel = some r →
      List.Chain' (fun x y => y ≤ x) (v :: r.2.1) ∧
        (r.2.1.length = fuel ∨ r.2.1.getLast? = some 0 ∨
          ∃ x, r.1.getLast? = some x ∧ d ≤ x) := by
  intro fuel
  induction fuel with
  | zero =>
    intro i s v hv r hp
    rw [brakeLoop] at hp
    cases hp
    exact ⟨List.chain'_singleton _, Or.inl rfl⟩
  | succ n ih =>
    intro i s v hv r hp
    simp only [brakeLoop] at hp
    split at hp
    · exact absurd hp (by simp)
    · rename_i slope hsl
      split at hp
      · rename_i hcond
        cases hp
        refine ⟨?_, ?_⟩
        · simp only [List.chain'_cons, List.chain'_singleton, and_true]
          exact brakeStep_v_le dp mind maxd dt gr slope s v h1 h2 hv
        · rcases hcond with hv0 | hs0
          · exact Or.inr (Or.inl (by
              simp only [List.getLast?_singleton]
              exact congrArg some (brakeStep_v_eq_zero dp mind maxd dt gr slope s v hv0)))
          · exact Or.inr (Or.inr ⟨_, by simp [List.getLast?_singleton], hs0⟩)
      · rename_i hcond
        split at hp
        · exact absurd hp (by simp)
        · rename_i ss vs ds hrec
          cases hp
          obtain ⟨hch, hterm⟩ := ih (i + 1) _ _
            (brakeStep_v_nonneg dp mind maxd dt gr slope s v) (ss, vs, ds) hrec
          refine ⟨?_, ?_⟩
          · exact List.chain'_cons.mpr
              ⟨brakeStep_v_le dp mind maxd dt gr slope s v h1 h2 hv, hch⟩
          · rcases hterm with h | h | ⟨x, hx, hdx⟩
            · exact Or.inl (by simpa using h)
            · exact Or.inr (Or.inl (getLast?_cons_of_getLast? _ h))
            · exact Or.inr (Or.inr ⟨x, getLast?_cons_of_getLast? _ hx, hdx⟩)

/-- Claim C3 (amended): for valid inputs (`initial_speed >= 0`,
`min_dec <= max_dec < 0`), every produced braking speed array is
non-increasing at every consecutive pair; the last produced speed entry is
exactly 0 when the run stopped on the speed condition `v_i <= 0`, but when
the run stops because `s_i >= distance`, or exhausts the requested
`⌊distance/dt⌋ + 1` steps, the last entry may stay positive even though
`distance` is finite. -/
theorem braking_monotone (v0 d : ℝ) (slopeP : Option (List ℝ))
    (dp mind maxd dt gr : ℝ) (h0 : 0 ≤ v0) (h1 : mind ≤ maxd) (h2 : maxd < 0)
    (p : BrakeProfile)
    (hp : calculate_braking_profile v0 d slopeP dp mind maxd dt gr = some p) :
    List.Chain' (fun x y => y ≤ x) p.speed ∧
      (p.speed.getLastD 0 = 0 ∨ d ≤ p.distance.getLastD 0 ∨
        p.speed.length = (⌊d / dt⌋ + 1).toNat) := by
  unfold calculate_braking_profile at hp
  split at hp
  · exact absurd hp (by simp)
  · simp only [] at hp
    split at hp
    · exact absurd hp (by simp)
    · rename_i h1' h2'
      split at hp
      · exact absurd hp (by simp)
      · rename_i ss vs ds hrec
        cases hp
        obtain ⟨hch, hterm⟩ := brakeLoop_chain dp mind maxd dt gr d slopeP h1 h2
          ((⌊d / dt⌋ + 1).toNat - 1) 1 0 v0 h0 (ss, vs, ds) hrec
        refine ⟨hch, ?_⟩
        rcases hterm with h | h | ⟨x, hx, hdx⟩
        · refine Or.inr (Or.inr ?_)
          simp only [List.length_cons, h]
          omega
        · refine Or.inl ?_
          rw [List.getLastD_eq_getLast?, getLast?_cons_of_getLast? _ h]
          rfl
        · refine Or.inr (Or.inl ?_)
          rw [List.getLastD_eq_getLast?, getLast?_cons_of_getLast? _ hx]
          exact hdx

lemma brakeStep_break10 :
    ((brakeStep (-1) (-6/5) (-1/2) 1 (981/100) 0 0 10).2.1 ≤ 0 ∨
      (brakeStep (-1) (-6/5) (-1/2) 1 (981/100) 0 0 10).2.2 ≥ 3) ∧
      49/5 ≤ (brakeStep (-1) (-6/5) (-1/2) 1 (981/100) 0 0 10).2.1 ∧
      49/5 ≤ (brakeStep (-1) (-6/5) (-1/2) 1 (981/100) 0 0 10).2.2 := by
  have hdec : max (-6/5 : ℝ) (min (-1 + 981/100 * 0) (-1/2)) = -1 := by
    norm_num [max_def, min_def]
  have hsq0 : (0:ℝ) ≤ Real.sqrt (max 0 (2 * (-1) + 10 ^ 2)) := Real.sqrt_nonneg _
  have hv2 : (5:ℝ) ≤ (10 + Real.sqrt (max 0 (2 * (-1) + 10 ^ 2))) / 2 := by
    rw [le_div_iff₀ (by norm_num : (0:ℝ) < 2)]
    linarith
  have hm : max ((10 + Real.sqrt (max 0 (2 * (-1) + 10 ^ 2))) / 2) (1e-6 : ℝ) =
      (10 + Real.sqrt (max 0 (2 * (-1) + 10 ^ 2))) / 2 :=
    max_eq_left (le_trans (by norm_num) hv2)
  have hinv : 1 / ((10 + Real.sqrt (max 0 (2 * (-1) + 10 ^ 2))) / 2) ≤ 1 / 5 :=
    one_div_le_one_div_of_le (by norm_num) hv2
  have hva : (49:ℝ)/5 ≤ 10 + (-1) * 1 / ((10 + Real.sqrt (max 0 (2 * (-1) + 10 ^ 2))) / 2) := by
    have hrw : (-1:ℝ) * 1 / ((10 + Real.sqrt (max 0 (2 * (-1) + 10 ^ 2))) / 2) =
        -(1 / ((10 + Real.sqrt (max 0 (2 * (-1) + 10 ^ 2))) / 2)) := by ring
    rw [hrw]
    linarith
  simp only [brakeStep]
  rw [hdec, hm]
  have hmax : max 0 (10 + (-1) * 1 / ((10 + Real.sqrt (max 0 (2 * (-1) + 10 ^ 2))) / 2)) =
      10 + (-1) * 1 / ((10 + Real.sqrt (max 0 (2 * (-1) + 10 ^ 2))) / 2) :=
    max_eq_right (by linarith)
  rw [hmax]
  exact ⟨Or.inr (by linarith), by linarith, by linarith⟩

/-- Counterexample to claim C3 as stated: braking from speed 10 over the
finite distance 3 with valid negative-signed bounds stops on the distance
condition after one step; the produced profile ends with a speed of at
least 49/5, not 0. -/
theorem braking_last_speed_counterexample :
    (calculate_braking_profile 10 3 none (-1) (-6/5) (-1/2) 1 (981/100)).isSome = true ∧
      3 ≤ ((calculate_braking_profile 10 3 none (-1) (-6/5) (-1/2) 1
        (981/100)).getD ⟨[], [], []⟩).distance.getLastD 0 ∧
      0 < ((calculate_braking_profile 10 3 none (-1) (-6/5) (-1/2) 1
        (981/100)).getD ⟨[], [], []⟩).speed.getLastD 0 := by
  obtain ⟨hbreak, hvlb, hslb⟩ := brakeStep_break10
  have heq : calculate_braking_profile 10 3 none (-1) (-6/5) (-1/2) 1 (981/100) =
      some ⟨[0, (brakeStep (-1) (-6/5) (-1/2) 1 (981/100) 0 0 10).2.2],
        [10, (brakeStep (-1) (-6/5) (-1/2) 1 (981/100) 0 0 10).2.1],
        [0, (brakeStep (-1) (-6/5) (-1/2) 1 (981/100) 0 0 10).1]⟩ := by
    unfold calculate_braking_profile
    rw [if_neg (by norm_num : ¬(1:ℝ) = 0)]
    simp only []
    rw [if_neg (by norm_num : ¬⌊(3:ℝ) / 1⌋ + 1 < 1)]
    have hfuel : (⌊(3:ℝ) / 1⌋ + 1).toNat - 1 = 2 + 1 := by
      norm_num
      decide
    rw [hfuel, brakeLoop]
    rw [if_pos hbreak]
  rw [heq]
  exact ⟨rfl, le_trans (by norm_num) hslb, lt_of_lt_of_le (by norm_num) hvlb⟩

/-- Witness for the amended claim C3: braking from rest over distance 1
stops immediately on the speed condition with last speed exactly 0. -/
theorem braking_monotone_witness :
    List.Chain' (fun x y => y ≤ x) (⟨[0, 0], [0, 0], [0, -1]⟩ : BrakeProfile).speed ∧
      ((⟨[0, 0], [0, 0], [0, -1]⟩ : BrakeProfile).speed.getLastD 0 = 0 ∨
        (1:ℝ) ≤ (⟨[0, 0], [0, 0], [0, -1]⟩ : BrakeProfile).distance.getLastD 0 ∨
        (⟨[0, 0], [0, 0], [0, -1]⟩ : BrakeProfile).speed.length =
          (⌊(1:ℝ) / 1⌋ + 1).toNat) := by
  have hdec : max (-6/5 : ℝ) (min (-1 + 981/100 * 0) (-1/2)) = -1 := by
    norm_num [max_def, min_def]
  have harg : max (0:ℝ) (2 * (-1) + 0 ^ 2) = 0 := by norm_num
  have hstep : brakeStep (-1) (-6/5) (-1/2) 1 (981/100) 0 0 0 = (-1, 0, 0) := by
    simp only [brakeStep]
    rw [hdec, harg, Real.sqrt_zero]
    norm_num [max_def, min_def]
  refine braking_monotone 0 1 none (-1) (-6/5) (-1/2) 1 (981/100) (by norm_num)
    (by norm_num) (by norm_num) ⟨[0, 0], [0, 0], [0, -1]⟩ ?_
  unfold calculate_braking_profile
  rw [if_neg (by norm_num : ¬(1:ℝ) = 0)]
  simp only []
  rw [if_neg (by norm_num : ¬⌊(1:ℝ) / 1⌋ + 1 < 1)]
  have hfuel : (⌊(1:ℝ) / 1⌋ + 1).toNat - 1 = 0 + 1 := by
    norm_num
    decide
  rw [hfuel, brakeLoop]
  rw [hstep]
  rw [if_pos (Or.inl (le_refl (0:ℝ)))]

/-! ## Claim C4: block-occupancy index handling -/

lemma pyGet_natCast (l : List ℚ) (k : ℕ) : pyGet l (k : ℤ) = l.get? k := by
  unfold pyGet
  rw [if_pos (Int.ofNat_nonneg k)]
  norm_num

lemma get?_eq_getD {l : List ℚ} {k : ℕ} (h : k < l.length) :
    l.get? k = some (l.getD k 0) := by
  rw [List.getD_eq_get?]
  cases hx : l.get? k with
  | none => exact absurd (List.get?_eq_none.mp hx) (by omega)
  | some x => rfl

lemma pyGet_of_nonneg_lt {l : List ℚ} {i : ℤ} (h0 : 0 ≤ i)
    (h : i < (l.length : ℤ)) : pyGet l i = some (l.getD i.toNat 0) := by
  unfold pyGet
  rw [if_pos h0]
  exact get?_eq_getD (by omega)

lemma arrival_lookup_some (timeProfile : List ℚ) (i : ℤ) (h0 : 0 ≤ i) :
    ∃ c : Option ℚ, (if i < (timeProfile.length : ℤ) then
        (pyGet timeProfile i).bind fun t => some (some t)
      else some none) = some c ∧ ((timeProfile.length : ℤ) ≤ i → c = none) := by
  by_cases h : i < (timeProfile.length : ℤ)
  · rw [if_pos h, pyGet_of_nonneg_lt h0 h, Option.some_bind]
    exact ⟨_, rfl, fun hcon => absurd h (by omega)⟩
  · rw [if_neg h]
    exact ⟨none, rfl, fun _ => rfl⟩

lemma release_lookup_some (timeProfile releaseTime : List ℚ) (i : ℤ) (k : ℕ)
    (h0 : 0 ≤ i) (hk3 : k < releaseTime.length) :
    ∃ c : Option ℚ, (if i < (timeProfile.length : ℤ) then
        (pyGet timeProfile i).bind fun t =>
          (pyGet releaseTime (k : ℤ)).bind fun rt => some (some (t + rt))
      else some none) = some c ∧ ((timeProfile.length : ℤ) ≤ i → c = none) := by
  by_cases h : i < (timeProfile.length : ℤ)
  · rw [if_pos h, pyGet_of_nonneg_lt h0 h, Option.some_bind,
      pyGet_natCast, get?_eq_getD hk3, Option.some_bind]
    exact ⟨_, rfl, fun hcon => absurd h (by omega)⟩
  · rw [if_neg h]
    exact ⟨none, rfl, fun _ => rfl⟩

lemma booking_fallback_some (timeProfile : List ℚ) (reserveBeforeArrival : ℚ)
    (bp : ℤ) (h0 : 0 ≤ bp) :
    ∃ c : Option ℚ × Option ℚ × Option ℚ,
      (if bp < (timeProfile.length : ℤ) then
          (pyGet timeProfile bp).bind fun t =>
            some ((none : Option ℚ), (none : Option ℚ),
              some (t - reserveBeforeArrival))
        else some (none, none, none)) = some c ∧
      c.1 = none ∧ c.2.1 = none ∧ ((timeProfile.length : ℤ) ≤ bp → c.2.2 = none) := by
  by_cases h : bp < (timeProfile.length : ℤ)
  · rw [if_pos h, pyGet_of_nonneg_lt h0 h, Option.some_bind]
    exact ⟨_, rfl, rfl, rfl, fun hcon => absurd h (by omega)⟩
  · rw [if_neg h]
    exact ⟨_, rfl, rfl, rfl, fun _ => rfl⟩

/-- Claim C4 (amended): for nonnegative lookup indices the guards behave
as the claim says — any index at or beyond the length of `time_profile`
leaves the corresponding field NaN (`none`) and no out-of-range access
occurs.  (For negative indices the claim fails: Python negative indexing
wraps around or raises, see the counterexample.) -/
theorem block_occupancy_bounds (speedProfile timeProfile releaseSpeed overlap
    releaseTime settingTime : List ℚ) (trainLength reserveBeforeArrival vTol : ℚ)
    (k : ℕ) (bp : ℤ)
    (hk1 : k < releaseSpeed.length) (hk2 : k < overlap.length)
    (hk3 : k < releaseTime.length) (hk4 : k < settingTime.length)
    (hsp : speedProfile.length ≤ timeProfile.length)
    (hbp : 0 ≤ bp)
    (hrel : 0 ≤ bp + pyRound trainLength + pyInt (overlap.getD k 0)) :
    ∃ r, blockRecord speedProfile timeProfile releaseSpeed overlap releaseTime
        settingTime trainLength reserveBeforeArrival vTol k bp = some r ∧
      ((timeProfile.length : ℤ) ≤ bp → r.arrivalTime = none) ∧
      ((timeProfile.length : ℤ) ≤ bp + pyRound trainLength + pyInt (overlap.getD k 0) →
        r.releaseTime = none) ∧
      ((∀ x ∈ speedProfile, vTol < |x - releaseSpeed.getD k 0|) →
        (timeProfile.length : ℤ) ≤ bp → r.bookingTime = none) := by
  unfold blockRecord
  rw [pyGet_natCast, get?_eq_getD hk1, Option.some_bind]
  dsimp only []
  obtain ⟨c3, hc3, hc3n⟩ := arrival_lookup_some timeProfile bp hbp
  cases hidx : (List.range (speedProfile.map
      (fun x => |x - releaseSpeed.getD k 0|)).length).filter
      (fun j => decide ((speedProfile.map
        (fun x => |x - releaseSpeed.getD k 0|)).getD j 0 ≤ vTol)) with
  | nil =>
    obtain ⟨c012, hc012, h1, h2, h3⟩ :=
      booking_fallback_some timeProfile reserveBeforeArrival bp hbp
    rw [hc012, Option.some_bind, hc3, Option.some_bind,
      pyGet_natCast, get?_eq_getD hk2, Option.some_bind]
    obtain ⟨c4, hc4, hc4n⟩ := release_lookup_some timeProfile releaseTime
      (bp + pyRound trainLength + pyInt (overlap.getD k 0)) k hrel hk3
    rw [hc4, Option.some_bind]
    exact ⟨_, rfl, fun h => hc3n h, fun h => hc4n h, fun _ h => h3 h⟩
  | cons b rest =>
    have hbmem : b ∈ (List.range (speedProfile.map
        (fun x => |x - releaseSpeed.getD k 0|)).length).filter
        (fun j => decide ((speedProfile.map
          (fun x => |x - releaseSpeed.getD k 0|)).getD j 0 ≤ vTol)) := by
      rw [hidx]; exact List.mem_cons_self b rest
    have hblt : b < speedProfile.length := by
      have := (List.mem_filter.mp hbmem).1
      simpa using this
    have hble : b < timeProfile.length := lt_of_lt_of_le hblt hsp
    dsimp only []
    rw [pyGet_natCast timeProfile b, get?_eq_getD hble, Option.some_bind,
      pyGet_natCast settingTime k, get?_eq_getD hk4, Option.some_bind,
      Option.some_bind, hc3, Option.some_bind,
      pyGet_natCast overlap k, get?_eq_getD hk2, Option.some_bind]
    obtain ⟨c4, hc4, hc4n⟩ := release_lookup_some timeProfile releaseTime
      (bp + pyRound trainLength + pyInt (overlap.getD k 0)) k hrel hk3
    rw [hc4, Option.some_bind]
    refine ⟨_, rfl, fun h => hc3n h, fun h => hc4n h, fun hall _ => ?_⟩
    exfalso
    have hcond := (List.mem_filter.mp hbmem).2
    have hcond' : (speedProfile.map
        (fun x => |x - releaseSpeed.getD k 0|)).getD b 0 ≤ vTol := by
      simpa using hcond
    have hgd : (speedProfile.map (fun x => |x - releaseSpeed.getD k 0|)).getD b 0 =
        |speedProfile.getD b 0 - releaseSpeed.getD k 0| := by
      rw [List.getD_eq_get? , List.getD_eq_get?, List.get?_map]
      rw [get?_eq_getD hblt]
      rfl
    have hmem : speedProfile.getD b 0 ∈ speedProfile := by
      rw [List.getD_eq_get? , List.get?_eq_get hblt]
      exact List.get_mem speedProfile _ _
    have := hall _ hmem
    rw [hgd] at hcond'
    exact absurd hcond' (not_le.mpr this)

/-- Witness for the amended claim C4 at a concrete input: block position 5
and release index 5 both at or beyond the 2-entry time profile give
records whose arrival, release and booking fields are all undefined. -/
theorem block_occupancy_bounds_witness :
    ∃ r, blockRecord [] [1, 2] [0] [0] [0] [0] 0 0 (1/10) 0 5 = some r ∧
      (((2:ℕ) : ℤ) ≤ 5 → r.arrivalTime = none) ∧
      (((2:ℕ) : ℤ) ≤ 5 + pyRound 0 + pyInt (List.getD [0] 0 0) → r.releaseTime = none) ∧
      ((∀ x ∈ ([] : List ℚ), (1:ℚ)/10 < |x - List.getD [0] 0 0|) →
        ((2:ℕ) : ℤ) ≤ 5 → r.bookingTime = none) := by
  have h := block_occupancy_bounds [] [1, 2] [0] [0] [0] [0] 0 0 (1/10) 0 5
    (by norm_num) (by norm_num) (by norm_num) (by norm_num) (by norm_num)
    (by norm_num) (by norm_num [pyRound, pyInt])
  simpa using h

/-- Counterexample to claim C4 as stated: with the negative block position
-1 and a 3-entry time profile, the guard `bp < len(time_profile)` passes
and Python negative indexing wraps around, so booking, arrival and release
all read `time_profile[-1] = 30` instead of being the undefined value the
claim requires for an index outside the bounds. -/
theorem block_occupancy_counterexample :
    calculate_block_occupancy [-1] [] [] [10, 20, 30] [0] 0 [0] [0] [0] 0 (1/10) =
      some [⟨none, none, some 30, some 30, some 30⟩] ∧
      (some (30:ℚ) ≠ none) := by
  refine ⟨?_, by simp⟩
  norm_num [calculate_block_occupancy, blockRecord, pyGet, pyRound, pyInt,
    List.enum, List.enumFrom, List.mapM.loop, Option.some_bind, List.filter,
    show Int.toNat 2 = 2 from rfl]

/-! ## Claim C8: produced values stay within the per-interval extremes

The overlap filter selects a contiguous run of interval indices when the
breakpoints are sorted; the clipped weights are then nonnegative and
telescope to the occupied span length, so the weighted averages are convex
combinations of the per-interval values. -/

lemma getD_mono_of_sorted {bp : List ℚ} (hs : bp.Sorted (· ≤ ·)) {i j : ℕ}
    (hij : i ≤ j) (hj : j < bp.length) : bp.getD i 0 ≤ bp.getD j 0 := by
  have hi : i < bp.length := lt_of_le_of_lt hij hj
  rw [List.getD_eq_get?, List.get?_eq_get hi, List.getD_eq_get?,
    List.get?_eq_get hj]
  simp only [Option.getD_some]
  rcases eq_or_lt_of_le hij with rfl | hlt
  · exact le_refl _
  · exact List.pairwise_iff_get.mp hs ⟨i, hi⟩ ⟨j, hj⟩ hlt

lemma filter_convex_eq_range' (p : ℕ → Bool) (N : ℕ)
    (hconv : ∀ a b c, a ≤ b → b ≤ c → c < N → p a = true → p c = true →
      p b = true) :
    ∀ n, n ≤ N → ∃ a m, a + m ≤ n ∧ (List.range n).filter p = List.range' a m := by
  intro n
  induction n with
  | zero => exact fun _ => ⟨0, 0, le_refl 0, rfl⟩
  | succ n ih =>
    intro hn
    obtain ⟨a, m, ham, heq⟩ := ih (by omega)
    by_cases hp : p n = true
    · rcases Nat.eq_zero_or_pos m with hm0 | hm1
      · subst hm0
        refine ⟨n, 1, by omega, ?_⟩
        rw [List.range_succ, List.filter_append, heq]
        simp [hp, List.range'_one]
      · have hend : a + m = n := by
          by_contra hne
          have hlt : a + m < n := by omega
          have hpl : p (a + m - 1) = true := by
            have hmem : a + m - 1 ∈ List.range' a m := by
              rw [List.mem_range'_1]; omega
            have hmem2 : a + m - 1 ∈ (List.range n).filter p := by
              rw [heq]; exact hmem
            exact (List.mem_filter.mp hmem2).2
          have hpj : p (a + m) = true :=
            hconv (a + m - 1) (a + m) n (by omega) (by omega) (by omega) hpl hp
          have hmem3 : a + m ∈ (List.range n).filter p :=
            List.mem_filter.mpr ⟨List.mem_range.mpr hlt, hpj⟩
          rw [heq, List.mem_range'_1] at hmem3
          omega
        refine ⟨a, m + 1, by omega, ?_⟩
        rw [List.range_succ, List.filter_append, heq]
        have hsing : List.filter p [n] = [n] := by simp [hp]
        rw [hsing, ← hend]
        exact (List.range'_1_concat a m).symm
    · refine ⟨a, m, by omega, ?_⟩
      rw [List.range_succ, List.filter_append, heq]
      simp [hp]

lemma inklIntv_eq_range' {bp : List ℚ} (pos0 pos1 : ℚ) (hs : bp.Sorted (· ≤ ·)) :
    ∃ a m, a + m ≤ bp.length - 1 ∧ inklIntv bp pos0 pos1 = List.range' a m := by
  apply filter_convex_eq_range' _ (bp.length - 1) _ (bp.length - 1) (le_refl _)
  intro i j k hij hjk hk hpi hpk
  simp only [decide_eq_true_eq] at hpi hpk ⊢
  obtain ⟨hi1, _⟩ := hpi
  obtain ⟨_, hk2⟩ := hpk
  constructor
  · exact lt_of_lt_of_le hi1 (getD_mono_of_sorted hs (by omega) (by omega))
  · exact le_trans (getD_mono_of_sorted hs (by omega) (by omega)) hk2

lemma midLastSum_bounds {bp : List ℚ} (vals : ℕ → ℚ) (pos1 lo hi : ℚ)
    (hs : bp.Sorted (· ≤ ·)) :
    ∀ (k j0 : ℕ), 1 ≤ k → j0 + k ≤ bp.length - 1 →
      (∀ j, j0 ≤ j → j < j0 + k → lo ≤ vals j ∧ vals j ≤ hi) →
      bp.getD (j0 + k - 1) 0 ≤ pos1 →
      lo * (pos1 - bp.getD j0 0) ≤ midLastSum bp vals pos1 (List.range' j0 k) ∧
        midLastSum bp vals pos1 (List.range' j0 k) ≤ hi * (pos1 - bp.getD j0 0) := by
  intro k
  induction k with
  | zero => intro j0 h1 _ _ _; exact absurd h1 (by omega)
  | succ k ih =>
    intro j0 _ hlen hv hlast
    rcases Nat.eq_zero_or_pos k with hk0 | hk1
    · subst hk0
      rw [List.range'_one, midLastSum]
      have hw : 0 ≤ pos1 - bp.getD j0 0 := by
        have h := hlast
        simp only [Nat.add_sub_cancel] at h
        linarith
      obtain ⟨hlo, hhi⟩ := hv j0 (le_refl _) (by omega)
      exact ⟨mul_le_mul_of_nonneg_right hlo hw, mul_le_mul_of_nonneg_right hhi hw⟩
    · obtain ⟨k', rfl⟩ : ∃ k', k = k' + 1 := ⟨k - 1, by omega⟩
      have hr : List.range' j0 (k' + 1 + 1) = j0 :: (j0 + 1) :: List.range' (j0 + 2) k' := by
        rw [List.range'_succ, List.range'_succ]
      rw [hr, midLastSum]
      have hrest : (j0 + 1) :: List.range' (j0 + 2) k' = List.range' (j0 + 1) (k' + 1) := by
        rw [List.range'_succ]
      rw [hrest]
      obtain ⟨ihlo, ihhi⟩ := ih (j0 + 1) (by omega) (by omega)
        (fun j hj1 hj2 => hv j (by omega) (by omega))
        (by
          have heq : j0 + 1 + (k' + 1) - 1 = j0 + (k' + 1 + 1) - 1 := by omega
          rw [heq]; exact hlast)
      have hw0 : 0 ≤ bp.getD (j0 + 1) 0 - bp.getD j0 0 := by
        have := getD_mono_of_sorted hs (Nat.le_succ j0) (by omega)
        linarith
      obtain ⟨hlo, hhi⟩ := hv j0 (le_refl _) (by omega)
      constructor
      · have h1 := mul_le_mul_of_nonneg_right hlo hw0
        linarith
      · have h1 := mul_le_mul_of_nonneg_right hhi hw0
        linarith

lemma loopSum_bounds {bp : List ℚ} (vals : ℕ → ℚ) (pos0 pos1 lo hi : ℚ)
    (hs : bp.Sorted (· ≤ ·)) (a m : ℕ) (hm : 2 ≤ m)
    (hlen : a + m ≤ bp.length - 1)
    (hv : ∀ j, a ≤ j → j < a + m → lo ≤ vals j ∧ vals j ≤ hi)
    (hfirst : pos0 < bp.getD (a + 1) 0)
    (hlast : bp.getD (a + m - 1) 0 ≤ pos1) :
    lo * (pos1 - pos0) ≤ loopSum bp vals pos0 pos1 (List.range' a m) ∧
      loopSum bp vals pos0 pos1 (List.range' a m) ≤ hi * (pos1 - pos0) := by
  obtain ⟨m', rfl⟩ : ∃ m', m = m' + 1 := ⟨m - 1, by omega⟩
  rw [List.range'_succ, loopSum]
  obtain ⟨ihlo, ihhi⟩ := midLastSum_bounds vals pos1 lo hi hs m' (a + 1)
    (by omega) (by omega) (fun j h1 h2 => hv j (by omega) (by omega))
    (by
      have heq : a + 1 + m' - 1 = a + (m' + 1) - 1 := by omega
      rw [heq]; exact hlast)
  have hw0 : 0 ≤ bp.getD (a + 1) 0 - pos0 := by linarith
  obtain ⟨hlo, hhi⟩ := hv a (le_refl _) (by omega)
  constructor
  · have h1 := mul_le_mul_of_nonneg_right hlo hw0
    linarith
  · have h1 := mul_le_mul_of_nonneg_right hhi hw0
    linarith

lemma weighted_result_within {bp : List ℚ} (vals : ℕ → ℚ) (pos0 pos1 lo hi : ℚ)
    (hs : bp.Sorted (· ≤ ·))
    (hv : ∀ j, j < bp.length - 1 → lo ≤ vals j ∧ vals j ≤ hi) :
    (∀ j, inklIntv bp pos0 pos1 = [j] → lo ≤ vals j ∧ vals j ≤ hi) ∧
    (1 < (inklIntv bp pos0 pos1).length →
      lo ≤ loopSum bp vals pos0 pos1 (inklIntv bp pos0 pos1) / (pos1 - pos0) ∧
        loopSum bp vals pos0 pos1 (inklIntv bp pos0 pos1) / (pos1 - pos0) ≤ hi) := by
  constructor
  · intro j hj
    have hmem : j ∈ inklIntv bp pos0 pos1 := by
      rw [hj]; exact List.mem_singleton_self j
    exact hv j (mem_inklIntv.mp hmem).1
  · intro hmulti
    obtain ⟨a, m, hlen, heq⟩ := inklIntv_eq_range' pos0 pos1 hs
    rw [heq] at hmulti ⊢
    rw [List.length_range'] at hmulti
    have hmema : a ∈ inklIntv bp pos0 pos1 := by
      rw [heq, List.mem_range'_1]; omega
    have hmema1 : a + 1 ∈ inklIntv bp pos0 pos1 := by
      rw [heq, List.mem_range'_1]; omega
    have hmemL : a + m - 1 ∈ inklIntv bp pos0 pos1 := by
      rw [heq, List.mem_range'_1]; omega
    have hfirst : pos0 < bp.getD (a + 1) 0 := (mem_inklIntv.mp hmema).2.1
    have hlast : bp.getD (a + m - 1) 0 ≤ pos1 := (mem_inklIntv.mp hmemL).2.2
    have hLpos : 0 < pos1 - pos0 := by
      have h1 := (mem_inklIntv.mp hmema1).2.2
      have h2 := (mem_inklIntv.mp hmema).2.1
      linarith
    obtain ⟨hlo, hhi⟩ := loopSum_bounds vals pos0 pos1 lo hi hs a m (by omega) hlen
      (fun j h1 h2 => hv j (by omega)) hfirst hlast
    constructor
    · rw [le_div_iff₀ hLpos]
      exact hlo
    · rw [div_le_iff₀ hLpos]
      exact hhi

/-- Claim C8: for every valid piecewise profile (sorted breakpoints, one
value per interval) and every sample position and train length, every
value the equivalent-slope and curve-resistance calculators produce is
either NaN (`none`) or lies within the closed interval spanned by the
per-interval result values: any bounds `lo`, `hi` enclosing all
per-interval values also enclose the produced value. -/
theorem piecewise_results_within_extremes :
    (∀ (positions values : List ℚ) (xp trainLength lo hi : ℚ),
      positions.Sorted (· ≤ ·) →
      values.length + 1 = positions.length →
      (∀ j, j < values.length → lo ≤ values.getD j 0 ∧ values.getD j 0 ≤ hi) →
      ∀ r, calculate_equivalent_slope1 positions values xp trainLength = some r →
        lo ≤ r ∧ r ≤ hi) ∧
    (∀ (positions radii : List ℚ) (xp trainLength mass lo hi : ℚ),
      positions.Sorted (· ≤ ·) →
      radii.length + 1 = positions.length →
      (∀ j, j < radii.length →
        lo ≤ (if radii.getD j 0 < 300 then 4.91 / (radii.getD j 0 - 30)
          else 6.3 / (radii.getD j 0 - 55)) * mass ∧
        (if radii.getD j 0 < 300 then 4.91 / (radii.getD j 0 - 30)
          else 6.3 / (radii.getD j 0 - 55)) * mass ≤ hi) →
      ∀ r, calculate_curve_resistance1 positions radii xp trainLength mass = some r →
        lo ≤ r ∧ r ≤ hi) := by
  constructor
  · intro positions values xp trainLength lo hi hs hlen hv r hr
    have hv' : ∀ j, j < positions.length - 1 →
        lo ≤ values.getD j 0 ∧ values.getD j 0 ≤ hi := by
      intro j hj
      exact hv j (by omega)
    obtain ⟨hone, hmulti⟩ := weighted_result_within (fun j => values.getD j 0)
      (xp - trainLength) xp lo hi hs hv'
    unfold calculate_equivalent_slope1 at hr
    dsimp only [] at hr
    split at hr
    · rename_i hlen1
      obtain ⟨j, hj⟩ := List.length_eq_one.mp hlen1
      cases hr
      have := hone j hj
      simpa [hj] using this
    · split at hr
      · rename_i hlen1 hlen2
        cases hr
        exact hmulti hlen2
      · exact absurd hr (by simp)
  · intro positions radii xp trainLength mass lo hi hs hlen hv r hr
    have hv' : ∀ j, j < positions.length - 1 →
        lo ≤ (if radii.getD j 0 < 300 then 4.91 / (radii.getD j 0 - 30)
          else 6.3 / (radii.getD j 0 - 55)) * mass ∧
        (if radii.getD j 0 < 300 then 4.91 / (radii.getD j 0 - 30)
          else 6.3 / (radii.getD j 0 - 55)) * mass ≤ hi := by
      intro j hj
      exact hv j (by omega)
    obtain ⟨hone, hmulti⟩ := weighted_result_within
      (fun j => (if radii.getD j 0 < 300 then 4.91 / (radii.getD j 0 - 30)
        else 6.3 / (radii.getD j 0 - 55)) * mass)
      (xp - trainLength) xp lo hi hs hv'
    unfold calculate_curve_resistance1 at hr
    dsimp only [] at hr
    split at hr
    · rename_i hlen1
      obtain ⟨j, hj⟩ := List.length_eq_one.mp hlen1
      cases hr
      have := hone j hj
      simpa [hj] using this
    · split at hr
      · rename_i hlen1 hlen2
        cases hr
        rw [loopSum_div positions
          (fun j => (if radii.getD j 0 < 300 then 4.91 / (radii.getD j 0 - 30)
            else 6.3 / (radii.getD j 0 - 55)) * mass)
          (xp - trainLength) xp (xp - (xp - trainLength))]
        have hx : xp - (xp - trainLength) = trainLength := by ring
        have hmulti2 := hmulti hlen2
        rw [hx] at hmulti2 ⊢
        exact hmulti2
      · exact absurd hr (by simp)

/-- Witness for claim C8 at concrete two-interval inputs for both
calculators. -/
theorem piecewise_results_within_extremes_witness :
    ((1:ℚ)/100 ≤ 1/100 ∧ (1:ℚ)/100 ≤ 1/50) ∧
      ((491:ℚ)/7000 ≤ 491/7000 ∧ (491:ℚ)/7000 ≤ 491/7000) := by
  constructor
  · exact piecewise_results_within_extremes.1 [0, 500, 1000] [1/100, 1/50]
      500 100 (1/100) (1/50)
      (by norm_num [List.Sorted, List.pairwise_cons]) (by norm_num)
      (by intro j hj; norm_num at hj; interval_cases j <;> norm_num) (1/100)
      (by norm_num [calculate_equivalent_slope1, inklIntv, List.range_succ,
        List.filter_append, List.filter_cons, loopSum, midLastSum,
        List.getD_cons_zero, List.getD_cons_succ])
  · exact piecewise_results_within_extremes.2 [0, 10, 20] [100, 100]
      20 20 1 (491/7000) (491/7000)
      (by norm_num [List.Sorted, List.pairwise_cons]) (by norm_num)
      (by intro j hj; norm_num at hj; interval_cases j <;> norm_num) (491/7000)
      (by norm_num [calculate_curve_resistance1, inklIntv, List.range_succ,
        List.filter_append, List.filter_cons, loopSum, midLastSum,
        List.getD_cons_zero, List.getD_cons_succ])

end TrainSim
